import Mathlib

/-!
Shallow embedding of the hdphmm clustering module (hdphmm/cluster.py,
class Cluster).  Numeric entries are modelled as rationals.  External
capabilities appear as explicit function parameters of the embedded
operations:

* eigfn models np.linalg.eig(...)[0].real, the vector of real parts of
  the eigenvalues of a square matrix (an external LAPACK routine);
* trim models hdphmm.utils.stats.remove_outliers.  That function is
  repository code that is not among the sources here; the spec only says
  it drops a configurable fraction of extreme values from a 1-D
  sequence, so it is kept abstract (modelled from the spec);
* npStd models numpy ndarray.std, which is a square root and hence
  irrational in general; it is kept abstract as well.

numpy ndarray.mean is exact on rationals and is modelled concretely.
Fallible construction is modelled with Except String.
-/

namespace HdphmmCluster

/-- C-ordered tensor of shape (d0, d1, d2), matching a numpy ndarray.
Out-of-range reads default to 0; no claim exercises an out-of-range
read on well-formed data. -/
structure Tensor3 where
  d0 : ℕ
  d1 : ℕ
  d2 : ℕ
  data : List ℚ
  deriving Repr, DecidableEq, Inhabited

/-- Entry (i, j, q) of the tensor, as numpy indexes C-ordered data. -/
def Tensor3.entry (t : Tensor3) (i j q : ℕ) : ℚ :=
  t.data.getD (i * (t.d1 * t.d2) + j * t.d2 + q) 0

/-- Sample slice q as produced by np.moveaxis(A, -1, 0): the (d0, d1)
matrix A[:, :, q]. -/
def Tensor3.slice (t : Tensor3) (q : ℕ) : List (List ℚ) :=
  (List.range t.d0).map (fun i => (List.range t.d1).map (fun j => t.entry i j q))

/-- Default reduction of _flatten_A or _flatten_sigma:
A.reshape((A.shape[0] * A.shape[1], A.shape[2])).T.  Row q is the
row-major flattening of the sample matrix A[:, :, q]. -/
def flattenFull (t : Tensor3) : List (List ℚ) :=
  (List.range t.d2).map (fun q =>
    (List.range (t.d0 * t.d1)).map (fun c => t.data.getD (c * t.d2 + q) 0))

/-- Diagonal reduction: np.array([np.diag(A[..., a]) for a in range(A.shape[2])]).
np.diag of a (d0, d1) matrix returns the main diagonal, length min d0 d1. -/
def flattenDiags (t : Tensor3) : List (List ℚ) :=
  (List.range t.d2).map (fun a =>
    (List.range (min t.d0 t.d1)).map (fun i => t.entry i i a))

/-- Cluster._flatten_A.  With eigs true the per-sample eigenvalue rows
are taken from eigfn; with convert_rz the row becomes
[sum of squares of the first two eigenvalues, third eigenvalue]
(np.concatenate((np.square(eigs[:, :2]).sum(axis=1)[:, np.newaxis], eigs[:, [2]]), axis=1)).
The elif means diags is ignored whenever eigs is set. -/
def flatten_A (eigs diags convert_rz : Bool) (eigfn : List (List ℚ) → List ℚ)
    (A : Tensor3) : List (List ℚ) :=
  if eigs then
    (List.range A.d2).map (fun q =>
      let e := eigfn (A.slice q)
      if convert_rz then [((e.take 2).map (fun x => x * x)).sum, e.getD 2 0] else e)
  else if diags then flattenDiags A
  else flattenFull A

/-- Cluster._flatten_sigma.  Identical to _flatten_A except that the
convert_rz first column is the plain (not squared) sum of the first two
eigenvalues: eigs[:, :2].sum(axis=1). -/
def flatten_sigma (eigs diags convert_rz : Bool) (eigfn : List (List ℚ) → List ℚ)
    (sigma : Tensor3) : List (List ℚ) :=
  if eigs then
    (List.range sigma.d2).map (fun q =>
      let e := eigfn (sigma.slice q)
      if convert_rz then [(e.take 2).sum, e.getD 2 0] else e)
  else if diags then flattenDiags sigma
  else flattenFull sigma

/-- Value of a mu or T field: a 1-D array of shape (n,) or a 2-D array. -/
inductive NArr where
  | one (v : List ℚ)
  | two (m : List (List ℚ))
  deriving Repr, DecidableEq

/-- The v[:, np.newaxis] normalization applied to 1-D mu or T arrays. -/
def atleast2d : NArr → List (List ℚ)
  | .one v => v.map (fun x => [x])
  | .two m => m

/-- One parameter dictionary; every field is optional (absent key). -/
structure ParamRecord where
  A : Option Tensor3
  sigma : Option Tensor3
  mu : Option NArr
  T : Option NArr
  deriving Repr, DecidableEq

/-- The params argument: a dict, a list of dicts, or anything else. -/
inductive ParamInput where
  | dict (rec : ParamRecord)
  | list (recs : List ParamRecord)
  | other
  deriving Repr, DecidableEq

/-- Column-wise concatenation, np.concatenate(..., axis=1).  numpy
requires equal row counts; the claims only exercise consistent shapes. -/
def hcat (a b : List (List ℚ)) : List (List ℚ) :=
  List.zipWith (fun r1 r2 => r1 ++ r2) a b

/-- Lines 108-137: merge the present feature blocks column-wise in the
fixed order A, sigma, mu, T.  Returns none when every block is absent,
in which case self.X is simply never assigned. -/
def assembleX (Ab sb mub Tb : Option (List (List ℚ))) : Option (List (List ℚ)) :=
  let X1 : Option (List (List ℚ)) :=
    match Ab, sb with
    | some A, some s => some (hcat A s)
    | some A, none => some A
    | none, some s => some s
    | none, none => none
  let X2 : Option (List (List ℚ)) :=
    match mub, X1 with
    | some mu, none => some mu
    | some mu, some X => some (hcat X mu)
    | none, _ => X1
  match Tb, X2 with
  | some Tm, none => some Tm
  | some Tm, some X => some (hcat X Tm)
  | none, _ => X2

/-- Lines 99-102: the loop over params[1:], concatenating the reduced A
and sigma blocks of each further record row-wise (np.concatenate along
axis 0).  A missing key raises KeyError. -/
def concatRest (eigs diags convert_rz : Bool) (eigfn : List (List ℚ) → List ℚ) :
    List ParamRecord → List (List ℚ) → List (List ℚ) →
    Except String (List (List ℚ) × List (List ℚ))
  | [], accA, accS => .ok (accA, accS)
  | r :: rs, accA, accS =>
    match r.A, r.sigma with
    | some rA, some rS =>
      concatRest eigs diags convert_rz eigfn rs
        (accA ++ flatten_A eigs diags convert_rz eigfn rA)
        (accS ++ flatten_sigma eigs diags convert_rz eigfn rS)
    | none, _ => .error "KeyError: \x27A\x27"
    | some _, none => .error "KeyError: \x27sigma\x27"

/-- Lines 59-137: feature construction.  On the dict path the locals mu
and T_ are initialised and the blocks are merged.  On the list path the
A and sigma blocks are built, the A/sigma merge succeeds, and then line
127 reads the local variable mu, which was never assigned on this path:
CPython raises UnboundLocalError, so construction always fails for list
input.  Any other input type raises the recognised-type error. -/
def buildFeatures (eigfn : List (List ℚ) → List ℚ) (eigs diags convert_rz : Bool)
    (params : ParamInput) : Except String (Option (List (List ℚ))) :=
  match params with
  | .dict rec =>
    .ok (assembleX
      (rec.A.map (flatten_A eigs diags convert_rz eigfn))
      (rec.sigma.map (flatten_sigma eigs diags convert_rz eigfn))
      (rec.mu.map atleast2d)
      (rec.T.map atleast2d))
  | .list recs =>
    match recs with
    | [] => .error "IndexError: list index out of range"
    | r0 :: rest =>
      match r0.A, r0.sigma with
      | some A0, some s0 =>
        match concatRest eigs diags convert_rz eigfn rest
            (flatten_A eigs diags convert_rz eigfn A0)
            (flatten_sigma eigs diags convert_rz eigfn s0) with
        | .error e => .error e
        | .ok _ =>
          .error "UnboundLocalError: local variable \x27mu\x27 referenced before assignment"
      | none, _ => .error "KeyError: \x27A\x27"
      | some _, none => .error "KeyError: \x27sigma\x27"
  | .other => .error "Input data type not recognized. Please pass a list or a dict."

/-- Column d of the feature matrix, self.X[:, d]. -/
def column (X : List (List ℚ)) (d : ℕ) : List ℚ :=
  X.map (fun row => row.getD d 0)

/-- Entry in row r, column c of a row-list matrix. -/
def matEntry (X : List (List ℚ)) (r c : ℕ) : ℚ :=
  (X.getD r []).getD c 0

/-- numpy ndarray.mean on a 1-D array, exact over the rationals. -/
def npMean (l : List ℚ) : ℚ :=
  l.sum / (l.length : ℚ)

/-- Lines 143-149 for one column d: trim the current column, then
subtract the trimmed mean from every original entry and divide every
entry by the trimmed standard deviation. -/
def stdStep (trim : List ℚ → List ℚ) (npStd : List ℚ → ℚ)
    (X : List (List ℚ)) (d : ℕ) : List (List ℚ) :=
  let out := trim (column X d)
  X.map (fun row => row.set d ((row.getD d 0 - npMean out) / npStd out))

/-- Lines 141-149: the in-place loop for d in range(self.X.shape[1]). -/
def stdLoop (trim : List ℚ → List ℚ) (npStd : List ℚ → ℚ)
    (X : List (List ℚ)) : List (List ℚ) :=
  (List.range (X.headD []).length).foldl (stdStep trim npStd) X

/-- The backend object built by _agglomerative or _bayesian from the
configuration held at fit time; opaque beyond its parameters. -/
inductive BackendModel where
  | agglom (nclusters : Option ℕ) (distance_threshold : Option ℚ) (linkage : String)
  | bayes (ncomponents max_iter : ℕ) (wcp_type : String) (gamma : Option ℚ)
      (mean_precision_prior : ℚ) (init_params : String)
  deriving Repr, DecidableEq

/-- Attributes of a constructed Cluster object. -/
structure ClusterState where
  cluster_fxn : String
  means : Bool
  ncomponents : ℕ
  max_iter : ℕ
  weight_concentration_prior_type : String
  gamma : Option ℚ
  mean_precision_prior : ℚ
  init_params : String
  eigs : Bool
  diags : Bool
  nclusters : Option ℕ
  convert_rz : Bool
  distance_threshold : Option ℚ
  linkage : String
  X : Option (List (List ℚ))
  labels : Option (List ℕ)
  clusters : Option BackendModel
  deriving Repr, DecidableEq, Inhabited

/-- Lines 177-188: self.cluster_fxn() instantiating the backend from the
fields the object holds when fit is called. -/
def mkBackend (s : ClusterState) : BackendModel :=
  if s.cluster_fxn = "agglomerative" then
    .agglom s.nclusters s.distance_threshold s.linkage
  else
    .bayes s.ncomponents s.max_iter s.weight_concentration_prior_type s.gamma
      s.mean_precision_prior s.init_params

/-- Message of the exception raised for an unknown algorithm (line 38). -/
def unsupportedMsg (algorithm : String) : String :=
  "Clustering algorithm, \x27" ++ algorithm ++
    "\x27, not implemented. Use either \x27bayesian\x27 or \x27agglomerative\x27"

/-- Cluster.__init__.  The algorithm name is validated first (dict
lookup, line 33-38), the features are built, and per-column
standardization runs only on the agglomerative path (line 139; the
CPython identity test on interned literals behaves as string equality).
If no parameter block was present, self.X was never assigned and the
standardization loop raises AttributeError. -/
def initCluster (eigfn : List (List ℚ) → List ℚ) (trim : List ℚ → List ℚ)
    (npStd : List ℚ → ℚ) (params : ParamInput) (distance_threshold : ℚ)
    (eigs diags means : Bool) (algorithm : String) (ncomponents max_iter : ℕ)
    (wcp_type : String) (wcp : Option ℚ) (mean_precision_prior : ℚ)
    (init_params : String) (nclusters : Option ℕ) (linkage : String)
    (convert_rz : Bool) : Except String ClusterState :=
  if algorithm = "bayesian" ∨ algorithm = "agglomerative" then
    match buildFeatures eigfn eigs diags convert_rz params with
    | .error e => .error e
    | .ok Xb =>
      if algorithm = "agglomerative" then
        match Xb with
        | none => .error "AttributeError: the Cluster object has no attribute X"
        | some X =>
          .ok { cluster_fxn := algorithm, means := means, ncomponents := ncomponents,
                max_iter := max_iter, weight_concentration_prior_type := wcp_type,
                gamma := wcp, mean_precision_prior := mean_precision_prior,
                init_params := init_params, eigs := eigs, diags := diags,
                nclusters := nclusters, convert_rz := convert_rz,
                distance_threshold :=
                  if nclusters.isSome then none else some distance_threshold,
                linkage := linkage, X := some (stdLoop trim npStd X),
                labels := none, clusters := none }
      else
        .ok { cluster_fxn := algorithm, means := means, ncomponents := ncomponents,
              max_iter := max_iter, weight_concentration_prior_type := wcp_type,
              gamma := wcp, mean_precision_prior := mean_precision_prior,
              init_params := init_params, eigs := eigs, diags := diags,
              nclusters := nclusters, convert_rz := convert_rz,
              distance_threshold :=
                if nclusters.isSome then none else some distance_threshold,
              linkage := linkage, X := Xb, labels := none, clusters := none }
  else
    .error (unsupportedMsg algorithm)

/-- Insertion into a strictly increasing list, dropping duplicates. -/
def insertSorted (x : ℤ) : List ℤ → List ℤ
  | [] => [x]
  | y :: ys => if x < y then x :: y :: ys else if x = y then y :: ys else y :: insertSorted x ys

/-- np.unique: the sorted list of distinct values. -/
def sortedUnique (l : List ℤ) : List ℤ :=
  l.foldr insertSorted []

/-- The dictionary built by for i, label in enumerate(unique_labels),
as an association list (keys are distinct, so first-match lookup agrees
with the Python dict). -/
def enumMap : List ℤ → ℕ → List (ℤ × ℕ)
  | [], _ => []
  | x :: xs, n => (x, n) :: enumMap xs (n + 1)

/-- Association list lookup, map_states[l]; the default 0 is never used
because every looked-up label is a key. -/
def dictGet : List (ℤ × ℕ) → ℤ → Option ℕ
  | [], _ => none
  | (k, v) :: rest, key => if key = k then some v else dictGet rest key

/-- Rank (0-based position) of a value in a list. -/
def rankOf (x : ℤ) : List ℤ → ℕ
  | [] => 0
  | y :: ys => if x = y then 0 else rankOf x ys + 1

/-- Cluster.fit together with Cluster._remap_labels.  The backend call
self.clusters.fit_predict(self.X) is the abstract capability fp.  The
raw labels are rewritten through the enumeration dictionary of their
sorted unique values and self.nclusters is overwritten with the number
of unique raw labels. -/
def fit (fp : List (List ℚ) → List ℤ) (s : ClusterState) : Except String ClusterState :=
  match s.X with
  | none => .error "AttributeError: the Cluster object has no attribute X"
  | some X =>
    let raw := fp X
    let uniq := sortedUnique raw
    let map_states := enumMap uniq 0
    .ok { s with
          clusters := some (mkBackend s),
          labels := some (raw.map (fun l => (dictGet map_states l).getD 0)),
          nclusters := some uniq.length }

/-- Whether an embedded construction or fit succeeded. -/
def exceptOk : Except String ClusterState → Bool
  | .ok _ => true
  | .error _ => false

/-- Erase the inert means flag, for comparing states up to that field. -/
def stripMeans (s : ClusterState) : ClusterState :=
  { s with means := false }

/-- Concrete stand-in for np.linalg.eig on paths where it is unused. -/
def eigfn0 : List (List ℚ) → List ℚ := fun _ => []

/-- Concrete trim keeping every value (remove_outliers may drop none). -/
def idTrim : List ℚ → List ℚ := fun l => l

/-- Concrete standard deviation returning 1 on every input. -/
def stdOne : List ℚ → ℚ := fun _ => 1

/-- Concrete standard deviation returning 0, matching numpy std on any
constant column. -/
def stdZero : List ℚ → ℚ := fun _ => 0

/-- Payload of a successful construction or fit. -/
def getOk : Except String ClusterState → ClusterState
  | .ok s => s
  | .error _ => default

/-- Concrete constructed state used to exercise fit. -/
def w1s : ClusterState :=
  { cluster_fxn := "bayesian", means := false, ncomponents := 10, max_iter := 1500,
    weight_concentration_prior_type := "dirichlet_process", gamma := none,
    mean_precision_prior := 1, init_params := "random", eigs := false, diags := false,
    nclusters := none, convert_rz := false, distance_threshold := some 2,
    linkage := "ward", X := some [[1], [2], [3]], labels := none, clusters := none }

/-- Concrete backend fit_predict returning non-contiguous raw labels. -/
def w1fp : List (List ℚ) → List ℤ := fun _ => [7, 3, 7]

/-- Concrete record with both A and sigma present, for list input. -/
def w2rec : ParamRecord :=
  { A := some ⟨1, 1, 1, [2]⟩, sigma := some ⟨1, 1, 1, [3]⟩, mu := none, T := none }

/-- Concrete record with a single A block of two samples. -/
def w3rec : ParamRecord :=
  { A := some ⟨1, 1, 2, [1, 3]⟩, sigma := none, mu := none, T := none }

/-- Agglomerative construction on w3rec. -/
def w3sA : ClusterState :=
  getOk (initCluster eigfn0 idTrim stdOne (.dict w3rec) 2 false false false
    "agglomerative" 10 1500 "dirichlet_process" none 1 "random" none "ward" false)

/-- Bayesian construction on w3rec. -/
def w3sB : ClusterState :=
  getOk (initCluster eigfn0 idTrim stdOne (.dict w3rec) 2 false false false
    "bayesian" 10 1500 "dirichlet_process" none 1 "random" none "ward" false)

/-- Concrete record for the fit frame counterexample. -/
def w4rec : ParamRecord :=
  { A := some ⟨1, 1, 2, [3, 5]⟩, sigma := none, mu := none, T := none }

/-- Bayesian construction on w4rec; its nclusters field is none. -/
def c4s : ClusterState :=
  getOk (initCluster eigfn0 idTrim stdOne (.dict w4rec) 2 false false false
    "bayesian" 10 1500 "dirichlet_process" none 1 "random" none "ward" false)

/-- Backend returning one raw label per row. -/
def c4fp : List (List ℚ) → List ℤ := fun _ => [7]

/-- State of c4s after fit: nclusters has been overwritten. -/
def c4s2 : ClusterState := getOk (fit c4fp c4s)

/-- Concrete state for the amended fit frame witness. -/
def w4ws : ClusterState :=
  { cluster_fxn := "agglomerative", means := true, ncomponents := 10, max_iter := 1500,
    weight_concentration_prior_type := "dirichlet_process", gamma := none,
    mean_precision_prior := 1, init_params := "random", eigs := false, diags := false,
    nclusters := some 4, convert_rz := false, distance_threshold := none,
    linkage := "ward", X := some [[2], [9]], labels := none, clusters := none }

/-- Backend used in the amended fit frame witness. -/
def w4wfp : List (List ℚ) → List ℤ := fun _ => [0, 0]

/-- Result of fit on w4ws. -/
def w4wt : ClusterState := getOk (fit w4wfp w4ws)

/-- Concrete record whose single feature column is constant, so the
trimmed standard deviation numpy would compute is exactly 0. -/
def w5rec : ParamRecord :=
  { A := some ⟨1, 1, 2, [1, 1]⟩, sigma := none, mu := none, T := none }

/-- Bayesian construction on w3rec with a supplied cluster count. -/
def w6s : ClusterState :=
  getOk (initCluster eigfn0 idTrim stdOne (.dict w3rec) 2 false false false "bayesian"
    10 1500 "dirichlet_process" none 1 "random" (some 3) "ward" false)

/-- Concrete (2, 2, 2) tensor for the flatten round-trip witness. -/
def t8 : Tensor3 := ⟨2, 2, 2, [1, 2, 3, 4, 5, 6, 7, 8]⟩

/-- Concrete (3, 3, 1) tensor for the eigenvalue reduction witness. -/
def t9 : Tensor3 := ⟨3, 3, 1, [1, 0, 0, 0, 2, 0, 0, 0, 3]⟩

/-- Concrete eigenvalue oracle returning three eigenvalues. -/
def eigfn9 : List (List ℚ) → List ℚ := fun _ => [2, 3, 5]

theorem getD_map_range {α : Type} (f : ℕ → α) (n q : ℕ) (d : α) (h : q < n) :
    ((List.range n).map f).getD q d = f q := by
  simp [List.getD_eq_getElem?_getD, List.getElem?_map, List.getElem?_range h]

theorem getD_set_ne (l : List ℚ) (i j : ℕ) (a : ℚ) (h : i ≠ j) :
    (l.set i a).getD j 0 = l.getD j 0 := by
  simp [List.getD_eq_getElem?_getD, List.getElem?_set_ne h]

theorem getD_set_self (l : List ℚ) (i : ℕ) (a : ℚ) (h : i < l.length) :
    (l.set i a).getD i 0 = a := by
  simp [List.getD_eq_getElem?_getD, List.getElem?_set_self, h]

theorem matEntry_eq_column_getD (X : List (List ℚ)) (r c : ℕ) :
    matEntry X r c = (column X c).getD r 0 := by
  induction X generalizing r with
  | nil => cases r <;> simp [matEntry, column]
  | cons row rows ih =>
    cases r with
    | zero => simp [matEntry, column]
    | succ r => simpa [matEntry, column] using ih r

theorem column_stdStep_ne (trim : List ℚ → List ℚ) (npStd : List ℚ → ℚ)
    (X : List (List ℚ)) (d c : ℕ) (h : c ≠ d) :
    column (stdStep trim npStd X d) c = column X c := by
  unfold stdStep column
  simp only [List.map_map]
  refine List.map_congr_left (fun row _ => ?_)
  exact getD_set_ne _ _ _ _ (fun hdc => h hdc.symm)

theorem length_stdStep (trim : List ℚ → List ℚ) (npStd : List ℚ → ℚ)
    (X : List (List ℚ)) (d : ℕ) : (stdStep trim npStd X d).length = X.length := by
  simp [stdStep]

theorem rect_stdStep (trim : List ℚ → List ℚ) (npStd : List ℚ → ℚ)
    (X : List (List ℚ)) (d w : ℕ) (h : ∀ row ∈ X, row.length = w) :
    ∀ row ∈ stdStep trim npStd X d, row.length = w := by
  intro row hrow
  simp only [stdStep, List.mem_map] at hrow
  obtain ⟨r0, hr0, rfl⟩ := hrow
  simpa using h r0 hr0

theorem matEntry_map_set (f : ℚ → ℚ) (d : ℕ) :
    ∀ (X : List (List ℚ)) (r : ℕ), r < X.length → (∀ row ∈ X, d < row.length) →
      matEntry (X.map (fun row => row.set d (f (row.getD d 0)))) r d = f (matEntry X r d) := by
  intro X
  induction X with
  | nil => intro r hr; simp at hr
  | cons row rows ih =>
    intro r hr hlen
    cases r with
    | zero =>
      have hd : d < row.length := hlen row (by simp)
      simp [matEntry, List.getD_eq_getElem?_getD, List.getElem?_set_self, hd]
    | succ r =>
      have hr2 : r < rows.length := by simpa using hr
      have hlen2 : ∀ row2 ∈ rows, d < row2.length := fun row2 h2 =>
        hlen row2 (List.mem_cons_of_mem _ h2)
      simpa [matEntry] using ih r hr2 hlen2

theorem matEntry_stdStep_self (trim : List ℚ → List ℚ) (npStd : List ℚ → ℚ)
    (X : List (List ℚ)) (d w : ℕ) (r : ℕ)
    (hrect : ∀ row ∈ X, row.length = w) (hr : r < X.length) (hd : d < w) :
    matEntry (stdStep trim npStd X d) r d =
      (matEntry X r d - npMean (trim (column X d))) / npStd (trim (column X d)) := by
  have hlen : ∀ row ∈ X, d < row.length := fun row h => (hrect row h) ▸ hd
  exact matEntry_map_set (fun x => (x - npMean (trim (column X d))) / npStd (trim (column X d)))
    d X r hr hlen

theorem column_foldl_stdStep_notMem (trim : List ℚ → List ℚ) (npStd : List ℚ → ℚ) :
    ∀ (ds : List ℕ) (X : List (List ℚ)) (c : ℕ), c ∉ ds →
      column (ds.foldl (stdStep trim npStd) X) c = column X c := by
  intro ds
  induction ds with
  | nil => intro X c _; rfl
  | cons d ds ih =>
    intro X c hc
    have hcd : c ≠ d := fun h => hc (h ▸ List.mem_cons_self d ds)
    have hcds : c ∉ ds := fun h => hc (List.mem_cons_of_mem d h)
    calc column ((d :: ds).foldl (stdStep trim npStd) X) c
        = column (ds.foldl (stdStep trim npStd) (stdStep trim npStd X d)) c := rfl
      _ = column (stdStep trim npStd X d) c := ih _ _ hcds
      _ = column X c := column_stdStep_ne _ _ _ _ _ hcd

theorem length_foldl_stdStep (trim : List ℚ → List ℚ) (npStd : List ℚ → ℚ) :
    ∀ (ds : List ℕ) (X : List (List ℚ)),
      (ds.foldl (stdStep trim npStd) X).length = X.length := by
  intro ds
  induction ds with
  | nil => intro X; rfl
  | cons d ds ih =>
    intro X
    calc ((d :: ds).foldl (stdStep trim npStd) X).length
        = (ds.foldl (stdStep trim npStd) (stdStep trim npStd X d)).length := rfl
      _ = (stdStep trim npStd X d).length := ih _
      _ = X.length := length_stdStep _ _ _ _

theorem rect_foldl_stdStep (trim : List ℚ → List ℚ) (npStd : List ℚ → ℚ) (w : ℕ) :
    ∀ (ds : List ℕ) (X : List (List ℚ)), (∀ row ∈ X, row.length = w) →
      ∀ row ∈ ds.foldl (stdStep trim npStd) X, row.length = w := by
  intro ds
  induction ds with
  | nil => intro X h; exact h
  | cons d ds ih =>
    intro X h
    exact ih _ (rect_stdStep trim npStd X d w h)

theorem matEntry_foldl_stdStep (trim : List ℚ → List ℚ) (npStd : List ℚ → ℚ) (w : ℕ) :
    ∀ (ds : List ℕ) (X : List (List ℚ)), ds.Nodup → (∀ d ∈ ds, d < w) →
      (∀ row ∈ X, row.length = w) →
      ∀ r c, r < X.length → c ∈ ds →
        matEntry (ds.foldl (stdStep trim npStd) X) r c =
          (matEntry X r c - npMean (trim (column X c))) / npStd (trim (column X c)) := by
  intro ds
  induction ds with
  | nil => intro X _ _ _ r c _ hc; simp at hc
  | cons d ds ih =>
    intro X hnd hbound hrect r c hr hc
    have hdds : d ∉ ds := (List.nodup_cons.mp hnd).1
    have hfold : (d :: ds).foldl (stdStep trim npStd) X
        = ds.foldl (stdStep trim npStd) (stdStep trim npStd X d) := rfl
    rcases List.mem_cons.mp hc with rfl | hcds
    · rw [hfold, matEntry_eq_column_getD, column_foldl_stdStep_notMem _ _ _ _ _ hdds,
        ← matEntry_eq_column_getD]
      exact matEntry_stdStep_self trim npStd X c w r hrect hr (hbound c (by simp))
    · have hcd : c ≠ d := fun h => hdds (h ▸ hcds)
      have step1 : matEntry ((d :: ds).foldl (stdStep trim npStd) X) r c =
          (matEntry (stdStep trim npStd X d) r c -
            npMean (trim (column (stdStep trim npStd X d) c))) /
            npStd (trim (column (stdStep trim npStd X d) c)) := by
        rw [hfold]
        exact ih (stdStep trim npStd X d) (List.nodup_cons.mp hnd).2
          (fun e he => hbound e (List.mem_cons_of_mem d he))
          (rect_stdStep trim npStd X d w hrect) r c
          ((length_stdStep trim npStd X d).symm ▸ hr) hcds
      rw [step1, column_stdStep_ne _ _ _ _ _ hcd, matEntry_eq_column_getD,
        column_stdStep_ne _ _ _ _ _ hcd, ← matEntry_eq_column_getD]

theorem stdLoop_matEntry (trim : List ℚ → List ℚ) (npStd : List ℚ → ℚ)
    (X : List (List ℚ)) (w : ℕ) (hrect : ∀ row ∈ X, row.length = w)
    (r c : ℕ) (hr : r < X.length) (hc : c < w) :
    matEntry (stdLoop trim npStd X) r c =
      (matEntry X r c - npMean (trim (column X c))) / npStd (trim (column X c)) := by
  obtain ⟨row0, rows, rfl⟩ : ∃ row0 rows, X = row0 :: rows := by
    cases X with
    | nil => simp at hr
    | cons a b => exact ⟨a, b, rfl⟩
  have hhead : ((row0 :: rows).headD []).length = w := hrect row0 (by simp)
  unfold stdLoop
  rw [hhead]
  exact matEntry_foldl_stdStep trim npStd w (List.range w) (row0 :: rows)
    (List.nodup_range w) (fun d hd => List.mem_range.mp hd) hrect r c hr
    (List.mem_range.mpr hc)

theorem mem_insertSorted (x a : ℤ) : ∀ (l : List ℤ), a ∈ insertSorted x l ↔ a = x ∨ a ∈ l := by
  intro l
  induction l with
  | nil => simp [insertSorted]
  | cons y ys ih =>
    unfold insertSorted
    split_ifs with h1 h2
    · simp [List.mem_cons]
    · subst h2
      simp [List.mem_cons]
    · simp [List.mem_cons, ih]
      tauto

theorem pairwise_insertSorted (x : ℤ) :
    ∀ (l : List ℤ), l.Pairwise (· < ·) → (insertSorted x l).Pairwise (· < ·) := by
  intro l
  induction l with
  | nil => intro _; simp [insertSorted]
  | cons y ys ih =>
    intro hp
    obtain ⟨hy, hys⟩ := List.pairwise_cons.mp hp
    unfold insertSorted
    split_ifs with h1 h2
    · refine List.pairwise_cons.mpr ⟨?_, List.pairwise_cons.mpr ⟨hy, hys⟩⟩
      intro b hb
      rcases List.mem_cons.mp hb with rfl | hbys
      · exact h1
      · exact lt_trans h1 (hy b hbys)
    · exact List.pairwise_cons.mpr ⟨hy, hys⟩
    · have hyx : y < x := lt_of_le_of_ne (not_lt.mp h1) (fun h => h2 h.symm)
      refine List.pairwise_cons.mpr ⟨?_, ih hys⟩
      intro b hb
      rcases (mem_insertSorted x b ys).mp hb with rfl | hbys
      · exact hyx
      · exact hy b hbys

theorem mem_sortedUnique (a : ℤ) : ∀ (l : List ℤ), a ∈ sortedUnique l ↔ a ∈ l := by
  intro l
  induction l with
  | nil => simp [sortedUnique]
  | cons x xs ih =>
    show a ∈ insertSorted x (sortedUnique xs) ↔ a ∈ x :: xs
    rw [mem_insertSorted, ih]
    simp [List.mem_cons]

theorem pairwise_sortedUnique : ∀ (l : List ℤ), (sortedUnique l).Pairwise (· < ·) := by
  intro l
  induction l with
  | nil => simp [sortedUnique]
  | cons x xs ih => exact pairwise_insertSorted x (sortedUnique xs) ih

theorem nodup_sortedUnique (l : List ℤ) : (sortedUnique l).Nodup :=
  (pairwise_sortedUnique l).imp (fun h => ne_of_lt h)

theorem rankOf_lt_length (x : ℤ) : ∀ (l : List ℤ), x ∈ l → rankOf x l < l.length := by
  intro l
  induction l with
  | nil => intro h; simp at h
  | cons y ys ih =>
    intro h
    unfold rankOf
    split_ifs with hxy
    · simp
    · have hx : x ∈ ys := by
        rcases List.mem_cons.mp h with rfl | h2
        · exact absurd rfl hxy
        · exact h2
      simpa using Nat.succ_lt_succ (ih hx)

theorem rankOf_getElem :
    ∀ (l : List ℤ), l.Pairwise (· < ·) → ∀ (i : ℕ) (h : i < l.length), rankOf l[i] l = i := by
  intro l
  induction l with
  | nil => intro _ i h; simp at h
  | cons y ys ih =>
    intro hp i h
    obtain ⟨hy, hys⟩ := List.pairwise_cons.mp hp
    cases i with
    | zero => simp [rankOf]
    | succ i =>
      have hi : i < ys.length := by simpa using h
      have hmem : ys[i] ∈ ys := List.getElem_mem hi
      have hne : ys[i] ≠ y := ne_of_gt (hy ys[i] hmem)
      have hval : (y :: ys)[i + 1] = ys[i] := by simp
      rw [hval]
      unfold rankOf
      rw [if_neg hne, ih hys i hi]

theorem dictGet_enumMap (x : ℤ) :
    ∀ (l : List ℤ) (n : ℕ), x ∈ l → dictGet (enumMap l n) x = some (n + rankOf x l) := by
  intro l
  induction l with
  | nil => intro n h; simp at h
  | cons y ys ih =>
    intro n h
    show dictGet ((y, n) :: enumMap ys (n + 1)) x = some (n + rankOf x (y :: ys))
    unfold dictGet rankOf
    split_ifs with hxy
    · simp
    · have hx : x ∈ ys := by
        rcases List.mem_cons.mp h with rfl | h2
        · exact absurd rfl hxy
        · exact h2
      rw [ih (n + 1) hx]
      congr 1
      omega

/-- C1: when the backend fit_predict succeeds and returns at least one
raw label, fit stores the raw labels rewritten through the map sending
each raw label to its 0-based rank in the sorted set of unique raw
labels, the set of distinct stored labels is exactly the gap-free range
0..k-1, and the stored cluster count equals k, the number of unique raw
labels. -/
theorem C1_label_canonicalization (fp : List (List ℚ) → List ℤ) (s : ClusterState)
    (X : List (List ℚ)) (hX : s.X = some X) (_hne : fp X ≠ []) :
    (fit fp s).map (fun t => (t.labels, t.nclusters)) =
      .ok (some ((fp X).map (fun l => rankOf l (sortedUnique (fp X)))),
           some (sortedUnique (fp X)).length) ∧
    ((fp X).map (fun l => rankOf l (sortedUnique (fp X)))).toFinset =
      Finset.range (sortedUnique (fp X)).length ∧
    (sortedUnique (fp X)).length = (fp X).toFinset.card := by
  refine ⟨?_, ?_, ?_⟩
  · have hmap : ∀ l ∈ fp X,
        (dictGet (enumMap (sortedUnique (fp X)) 0) l).getD 0 = rankOf l (sortedUnique (fp X)) := by
      intro l hl
      rw [dictGet_enumMap l (sortedUnique (fp X)) 0 ((mem_sortedUnique l (fp X)).mpr hl)]
      simp
    unfold fit
    rw [hX]
    simp only [Except.map]
    rw [List.map_congr_left hmap]
  · ext i
    simp only [List.mem_toFinset, List.mem_map, Finset.mem_range]
    constructor
    · rintro ⟨l, hl, rfl⟩
      exact rankOf_lt_length l _ ((mem_sortedUnique l (fp X)).mpr hl)
    · intro hi
      refine ⟨(sortedUnique (fp X))[i], ?_, ?_⟩
      · exact (mem_sortedUnique _ (fp X)).mp (List.getElem_mem hi)
      · exact rankOf_getElem (sortedUnique (fp X)) (pairwise_sortedUnique (fp X)) i hi
  · have h1 : (sortedUnique (fp X)).toFinset = (fp X).toFinset := by
      ext a
      simp [List.mem_toFinset, mem_sortedUnique]
    calc (sortedUnique (fp X)).length
        = (sortedUnique (fp X)).toFinset.card :=
          (List.toFinset_card_of_nodup (nodup_sortedUnique (fp X))).symm
      _ = (fp X).toFinset.card := by rw [h1]

theorem C1_witness :
    w1s.X = some [[1], [2], [3]] ∧ w1fp [[1], [2], [3]] ≠ [] ∧
    (fit w1fp w1s).map (fun t => (t.labels, t.nclusters)) =
      .ok (some ((w1fp [[1], [2], [3]]).map
            (fun l => rankOf l (sortedUnique (w1fp [[1], [2], [3]])))),
           some (sortedUnique (w1fp [[1], [2], [3]])).length) :=
  ⟨rfl, by decide, (C1_label_canonicalization w1fp w1s [[1], [2], [3]] rfl (by decide)).1⟩

/-- C2: the claim says construction succeeds for a list of records each
holding A and sigma, producing the row-stacked, column-merged feature
matrix.  The code instead always fails for list input: the local
variable mu is assigned only in the dict branch, and line 127 reads it
unconditionally, so CPython raises UnboundLocalError.  This theorem
evaluates the embedded constructor at such failing inputs (a one-record
and a two-record list of well-formed records). -/
theorem C2_list_input_unbound_local :
    initCluster eigfn0 idTrim stdOne (.list [w2rec]) 2 false false false "bayesian" 10 1500
        "dirichlet_process" none 1 "random" none "ward" false =
      .error "UnboundLocalError: local variable \x27mu\x27 referenced before assignment" ∧
    initCluster eigfn0 idTrim stdOne (.list [w2rec, w2rec]) 2 false false false "bayesian" 10
        1500 "dirichlet_process" none 1 "random" none "ward" false =
      .error "UnboundLocalError: local variable \x27mu\x27 referenced before assignment" :=
  ⟨rfl, rfl⟩

/-- C3: for identical raw parameter input, the matrix X of an
agglomerative instance is exactly the bayesian instance matrix pushed
through the per-column standardization loop, and each entry of that
loop result subtracts the trimmed-column mean from the original value
and divides by the trimmed-column standard deviation; the bayesian
matrix itself is the unstandardized output of feature construction. -/
theorem C3_standardization_difference (eigfn : List (List ℚ) → List ℚ)
    (trim : List ℚ → List ℚ) (npStd : List ℚ → ℚ) (rec : ParamRecord) (dt : ℚ)
    (eigs diags means : Bool) (nc mi : ℕ) (wt : String) (wc : Option ℚ) (mp : ℚ)
    (ip : String) (ncl : Option ℕ) (lk : String) (cr : Bool) (sA sB : ClusterState)
    (XB : List (List ℚ)) (w : ℕ)
    (hA : initCluster eigfn trim npStd (.dict rec) dt eigs diags means "agglomerative"
      nc mi wt wc mp ip ncl lk cr = .ok sA)
    (hB : initCluster eigfn trim npStd (.dict rec) dt eigs diags means "bayesian"
      nc mi wt wc mp ip ncl lk cr = .ok sB)
    (hXB : sB.X = some XB)
    (hrect : ∀ row ∈ XB, row.length = w) :
    buildFeatures eigfn eigs diags cr (.dict rec) = .ok (some XB) ∧
    sA.X = some (stdLoop trim npStd XB) ∧
    ∀ r d, r < XB.length → d < w →
      matEntry (stdLoop trim npStd XB) r d =
        (matEntry XB r d - npMean (trim (column XB d))) / npStd (trim (column XB d)) := by
  cases hbf : buildFeatures eigfn eigs diags cr (.dict rec) with
  | error e =>
    unfold initCluster at hA
    rw [if_pos (Or.inr rfl), hbf] at hA
    simp at hA
  | ok Xb =>
    cases Xb with
    | none =>
      unfold initCluster at hA
      rw [if_pos (Or.inr rfl), hbf] at hA
      simp at hA
    | some X =>
      unfold initCluster at hA hB
      rw [if_pos (Or.inr rfl), hbf] at hA
      rw [if_pos (Or.inl rfl), hbf] at hB
      simp at hA hB
      subst hA
      subst hB
      replace hXB : some X = some XB := hXB
      injection hXB with hXX
      subst hXX
      refine ⟨rfl, rfl, ?_⟩
      intro r d hr hd
      exact stdLoop_matEntry trim npStd X w hrect r d hr hd

theorem C3_witness :
    initCluster eigfn0 idTrim stdOne (.dict w3rec) 2 false false false "agglomerative" 10 1500
        "dirichlet_process" none 1 "random" none "ward" false = .ok w3sA ∧
    initCluster eigfn0 idTrim stdOne (.dict w3rec) 2 false false false "bayesian" 10 1500
        "dirichlet_process" none 1 "random" none "ward" false = .ok w3sB ∧
    w3sB.X = some [[1], [3]] ∧ (∀ row ∈ [[(1 : ℚ)], [3]], row.length = 1) ∧
    buildFeatures eigfn0 false false false (.dict w3rec) = .ok (some [[1], [3]]) ∧
    matEntry (stdLoop idTrim stdOne [[1], [3]]) 0 0 =
      (matEntry [[1], [3]] 0 0 - npMean (idTrim (column [[1], [3]] 0))) /
        stdOne (idTrim (column [[1], [3]] 0)) := by
  have h := C3_standardization_difference eigfn0 idTrim stdOne w3rec 2 false false false
    10 1500 "dirichlet_process" none 1 "random" none "ward" false w3sA w3sB [[1], [3]] 1
    rfl rfl rfl (by decide)
  exact ⟨rfl, rfl, rfl, by decide, h.1, h.2.2 0 0 (by decide) (by decide)⟩

/-- C4, counterexample: the claim says fit leaves every configuration
field set at construction unchanged, in particular nclusters.  On a
bayesian instance constructed with nclusters none, fit overwrites
nclusters with the discovered cluster count (line 175), so the field
changes. -/
theorem C4_counterexample :
    initCluster eigfn0 idTrim stdOne (.dict w4rec) 2 false false false "bayesian" 10 1500
        "dirichlet_process" none 1 "random" none "ward" false = .ok c4s ∧
    fit c4fp c4s = .ok c4s2 ∧
    c4s.nclusters = none ∧ c4s2.nclusters = some 1 ∧ c4s2.nclusters ≠ c4s.nclusters :=
  ⟨rfl, rfl, rfl, rfl, by decide⟩

/-- C4, amended: fit leaves the feature matrix X and every construction
field except nclusters unchanged (distance_threshold in particular); it
sets only the labels, the backend instance stored in clusters, and
nclusters, which it overwrites with the discovered cluster count. -/
theorem C4_fit_frame (fp : List (List ℚ) → List ℤ) (s t : ClusterState)
    (h : fit fp s = .ok t) :
    (t.X, t.cluster_fxn, t.means, t.ncomponents, t.max_iter,
      t.weight_concentration_prior_type, t.gamma, t.mean_precision_prior, t.init_params,
      t.eigs, t.diags, t.convert_rz, t.distance_threshold, t.linkage) =
    (s.X, s.cluster_fxn, s.means, s.ncomponents, s.max_iter,
      s.weight_concentration_prior_type, s.gamma, s.mean_precision_prior, s.init_params,
      s.eigs, s.diags, s.convert_rz, s.distance_threshold, s.linkage) ∧
    ∀ X, s.X = some X →
      t.labels = some ((fp X).map (fun l =>
        (dictGet (enumMap (sortedUnique (fp X)) 0) l).getD 0)) ∧
      t.nclusters = some (sortedUnique (fp X)).length ∧
      t.clusters = some (mkBackend s) := by
  cases hX : s.X with
  | none =>
    unfold fit at h
    rw [hX] at h
    simp at h
  | some X =>
    unfold fit at h
    rw [hX] at h
    simp at h
    subst h
    refine ⟨rfl, ?_⟩
    intro X2 hX2
    injection hX2 with h2
    subst h2
    exact ⟨rfl, rfl, rfl⟩

theorem C4_witness :
    (w4wt.X, w4wt.cluster_fxn, w4wt.means, w4wt.ncomponents, w4wt.max_iter,
      w4wt.weight_concentration_prior_type, w4wt.gamma, w4wt.mean_precision_prior,
      w4wt.init_params, w4wt.eigs, w4wt.diags, w4wt.convert_rz, w4wt.distance_threshold,
      w4wt.linkage) =
    (w4ws.X, w4ws.cluster_fxn, w4ws.means, w4ws.ncomponents, w4ws.max_iter,
      w4ws.weight_concentration_prior_type, w4ws.gamma, w4ws.mean_precision_prior,
      w4ws.init_params, w4ws.eigs, w4ws.diags, w4ws.convert_rz, w4ws.distance_threshold,
      w4ws.linkage) ∧
    w4wt.labels = some ((w4wfp [[2], [9]]).map (fun l =>
      (dictGet (enumMap (sortedUnique (w4wfp [[2], [9]])) 0) l).getD 0)) ∧
    w4wt.nclusters = some (sortedUnique (w4wfp [[2], [9]])).length ∧
    w4wt.clusters = some (mkBackend w4ws) := by
  obtain ⟨h1, h2⟩ := C4_fit_frame w4wfp w4ws w4wt rfl
  exact ⟨h1, h2 [[2], [9]] rfl⟩

/-- C5, counterexample: the claim says construction fails with a
propagated error when a column has zero trimmed standard deviation.
With a constant feature column (trimmed standard deviation 0, here the
std oracle returns 0 exactly as numpy would on that column), the
embedded constructor completes successfully: numpy division by zero
produces non-finite values plus a runtime warning, not an exception,
and the code has no check. -/
theorem C5_counterexample :
    stdZero (idTrim (column [[1], [1]] 0)) = 0 ∧
    buildFeatures eigfn0 false false false (.dict w5rec) = .ok (some [[1], [1]]) ∧
    exceptOk (initCluster eigfn0 idTrim stdZero (.dict w5rec) 2 false false false
      "agglomerative" 10 1500 "dirichlet_process" none 1 "random" none "ward" false) = true :=
  ⟨rfl, rfl, rfl⟩

/-- C5, amended: when a column of the built feature matrix has zero
trimmed standard deviation, agglomerative construction nevertheless
completes, with the standardization transform still applied (the zero
divisor makes the column non-finite in numpy; in this rational model
division by zero yields zero); no error propagates. -/
theorem C5_zero_std_no_error (eigfn : List (List ℚ) → List ℚ) (trim : List ℚ → List ℚ)
    (npStd : List ℚ → ℚ) (params : ParamInput) (dt : ℚ) (eigs diags means : Bool)
    (nc mi : ℕ) (wt : String) (wc : Option ℚ) (mp : ℚ) (ip : String) (ncl : Option ℕ)
    (lk : String) (cr : Bool) (X : List (List ℚ)) (d : ℕ)
    (hb : buildFeatures eigfn eigs diags cr params = .ok (some X))
    (_hzero : npStd (trim (column X d)) = 0) :
    (initCluster eigfn trim npStd params dt eigs diags means "agglomerative" nc mi wt wc
        mp ip ncl lk cr).map (fun s => s.X) = .ok (some (stdLoop trim npStd X)) := by
  unfold initCluster
  rw [if_pos (Or.inr rfl), hb]
  rfl

theorem C5_witness :
    buildFeatures eigfn0 false false false (.dict w5rec) = .ok (some [[1], [1]]) ∧
    stdZero (idTrim (column [[1], [1]] 0)) = 0 ∧
    (initCluster eigfn0 idTrim stdZero (.dict w5rec) 2 false false false "agglomerative" 10
        1500 "dirichlet_process" none 1 "random" none "ward" false).map (fun s => s.X) =
      .ok (some (stdLoop idTrim stdZero [[1], [1]])) :=
  ⟨rfl, rfl,
    C5_zero_std_no_error eigfn0 idTrim stdZero (.dict w5rec) 2 false false false 10 1500
      "dirichlet_process" none 1 "random" none "ward" false [[1], [1]] 0 rfl rfl⟩

/-- C6: whenever construction succeeds with nclusters supplied, the
stored distance_threshold is none regardless of the argument; when
nclusters is none, the supplied distance_threshold is kept. -/
theorem C6_nclusters_disables_threshold (eigfn : List (List ℚ) → List ℚ)
    (trim : List ℚ → List ℚ) (npStd : List ℚ → ℚ) (params : ParamInput) (dt : ℚ)
    (eigs diags means : Bool) (alg : String) (nc mi : ℕ) (wt : String) (wc : Option ℚ)
    (mp : ℚ) (ip : String) (ncl : Option ℕ) (lk : String) (cr : Bool) (s : ClusterState)
    (h : initCluster eigfn trim npStd params dt eigs diags means alg nc mi wt wc mp ip
      ncl lk cr = .ok s) :
    (ncl.isSome → s.distance_threshold = none) ∧
    (ncl = none → s.distance_threshold = some dt) := by
  have hdt : s.distance_threshold = if ncl.isSome then none else some dt := by
    unfold initCluster at h
    by_cases hv : alg = "bayesian" ∨ alg = "agglomerative"
    · rw [if_pos hv] at h
      cases hbf : buildFeatures eigfn eigs diags cr params with
      | error e =>
        rw [hbf] at h
        simp at h
      | ok Xb =>
        rw [hbf] at h
        simp at h
        by_cases ha : alg = "agglomerative"
        · rw [if_pos ha] at h
          cases Xb with
          | none => simp at h
          | some X =>
            simp at h
            subst h
            rfl
        · rw [if_neg ha] at h
          simp at h
          subst h
          rfl
    · rw [if_neg hv] at h
      simp at h
  constructor
  · intro hsome
    rw [hdt, if_pos hsome]
  · intro hnone
    rw [hdt]
    simp [hnone]

theorem C6_witness :
    ((some 3 : Option ℕ).isSome → w6s.distance_threshold = none) ∧
    ((some 3 : Option ℕ) = none → w6s.distance_threshold = some 2) :=
  C6_nclusters_disables_threshold eigfn0 idTrim stdOne (.dict w3rec) 2 false false false
    "bayesian" 10 1500 "dirichlet_process" none 1 "random" (some 3) "ward" false w6s rfl

/-- C7: for any algorithm name other than bayesian and agglomerative,
construction fails with the unsupported-algorithm error whose message
names the offending value and the two valid choices, uniformly in the
parameter input, so before any feature construction effect. -/
theorem C7_unsupported_algorithm (eigfn : List (List ℚ) → List ℚ)
    (trim : List ℚ → List ℚ) (npStd : List ℚ → ℚ) (params : ParamInput) (dt : ℚ)
    (eigs diags means : Bool) (alg : String) (nc mi : ℕ) (wt : String) (wc : Option ℚ)
    (mp : ℚ) (ip : String) (ncl : Option ℕ) (lk : String) (cr : Bool)
    (h1 : alg ≠ "bayesian") (h2 : alg ≠ "agglomerative") :
    initCluster eigfn trim npStd params dt eigs diags means alg nc mi wt wc mp ip ncl
        lk cr =
      .error ("Clustering algorithm, \x27" ++ alg ++
        "\x27, not implemented. Use either \x27bayesian\x27 or \x27agglomerative\x27") := by
  unfold initCluster
  rw [if_neg (fun hor => hor.elim h1 h2)]
  rfl

theorem C7_witness :
    ("unknown" : String) ≠ "bayesian" ∧ ("unknown" : String) ≠ "agglomerative" ∧
    initCluster eigfn0 idTrim stdOne (.dict w3rec) 2 false false false "unknown" 10 1500
        "dirichlet_process" none 1 "random" none "ward" false =
      .error ("Clustering algorithm, \x27" ++ "unknown" ++
        "\x27, not implemented. Use either \x27bayesian\x27 or \x27agglomerative\x27") :=
  ⟨by decide, by decide,
    C7_unsupported_algorithm eigfn0 idTrim stdOne (.dict w3rec) 2 false false false
      "unknown" 10 1500 "dirichlet_process" none 1 "random" none "ward" false
      (by decide) (by decide)⟩

/-- C8: with eigs and diags false, the reduced block of an (m, m, n)
tensor has n rows of length m * m, and the entry of row q at position
i * m + j is the original tensor entry (i, j, q), so every original
matrix entry is recoverable from its column position; the sigma
reduction is the identical flattening. -/
theorem C8_flatten_roundtrip (eigfn : List (List ℚ) → List ℚ) (cr : Bool) (t : Tensor3)
    (m n : ℕ) (h0 : t.d0 = m) (h1 : t.d1 = m) (h2 : t.d2 = n) :
    (flatten_A false false cr eigfn t).length = n ∧
    (∀ row ∈ flatten_A false false cr eigfn t, row.length = m * m) ∧
    (∀ i j q, i < m → j < m → q < n →
      matEntry (flatten_A false false cr eigfn t) q (i * m + j) = t.entry i j q) ∧
    flatten_sigma false false cr eigfn t = flatten_A false false cr eigfn t := by
  have hfa : flatten_A false false cr eigfn t = flattenFull t := rfl
  have hfs : flatten_sigma false false cr eigfn t = flattenFull t := rfl
  rw [hfa, hfs]
  refine ⟨?_, ?_, ?_, rfl⟩
  · simp [flattenFull, h2]
  · intro row hrow
    simp only [flattenFull, List.mem_map] at hrow
    obtain ⟨q, hq, rfl⟩ := hrow
    simp [h0, h1]
  · intro i j q hi hj hq
    have hlt : i * m + j < m * m := by
      have h3 : (i + 1) * m = i * m + m := by ring
      have h4 : i * m + j < (i + 1) * m := by omega
      have h5 : (i + 1) * m ≤ m * m := Nat.mul_le_mul_right m hi
      omega
    unfold matEntry flattenFull Tensor3.entry
    rw [h0, h1, h2]
    rw [getD_map_range _ _ _ _ hq, getD_map_range _ _ _ _ hlt]
    congr 1
    ring

theorem C8_witness :
    t8.d0 = 2 ∧ t8.d1 = 2 ∧ t8.d2 = 2 ∧
    (flatten_A false false false eigfn0 t8).length = 2 ∧
    matEntry (flatten_A false false false eigfn0 t8) 1 (1 * 2 + 0) = t8.entry 1 0 1 ∧
    flatten_sigma false false false eigfn0 t8 = flatten_A false false false eigfn0 t8 := by
  have h := C8_flatten_roundtrip eigfn0 false t8 2 2 rfl rfl rfl
  exact ⟨rfl, rfl, rfl, h.1, h.2.2.1 1 0 1 (by decide) (by decide) (by decide), h.2.2.2⟩

theorem list_three (l : List ℚ) (h : 3 ≤ l.length) :
    ∃ a b c rest, l = a :: b :: c :: rest := by
  cases l with
  | nil => simp at h
  | cons a l1 =>
    cases l1 with
    | nil => simp at h
    | cons b l2 =>
      cases l2 with
      | nil => simp at h
      | cons c rest => exact ⟨a, b, c, rest, rfl⟩

/-- C9: with eigs true and convert_rz false, the reduced block of an
(m, m, n) tensor has n rows, row q being the m real eigenvalue parts of
sample matrix q; with convert_rz true (three eigenvalues available),
the A row becomes the sum of squares of the first two eigenvalues
followed by the third, while the sigma row uses the plain sum of the
first two. -/
theorem C9_eig_reduction (eigfn : List (List ℚ) → List ℚ) (b : Bool) (t : Tensor3)
    (m n : ℕ) (_h0 : t.d0 = m) (_h1 : t.d1 = m) (h2 : t.d2 = n)
    (heig : ∀ q, q < n → (eigfn (t.slice q)).length = m) :
    ((flatten_A true b false eigfn t).length = n ∧
      ∀ q, q < n → (flatten_A true b false eigfn t).getD q [] = eigfn (t.slice q) ∧
        ((flatten_A true b false eigfn t).getD q []).length = m) ∧
    (3 ≤ m →
      ((flatten_A true b true eigfn t).length = n ∧
        ∀ q, q < n → (flatten_A true b true eigfn t).getD q [] =
          [(eigfn (t.slice q)).getD 0 0 * (eigfn (t.slice q)).getD 0 0 +
            (eigfn (t.slice q)).getD 1 0 * (eigfn (t.slice q)).getD 1 0,
           (eigfn (t.slice q)).getD 2 0]) ∧
      ((flatten_sigma true b true eigfn t).length = n ∧
        ∀ q, q < n → (flatten_sigma true b true eigfn t).getD q [] =
          [(eigfn (t.slice q)).getD 0 0 + (eigfn (t.slice q)).getD 1 0,
           (eigfn (t.slice q)).getD 2 0])) := by
  have hA0 : flatten_A true b false eigfn t =
      (List.range t.d2).map (fun q => eigfn (t.slice q)) := by
    simp [flatten_A]
  have hA1 : flatten_A true b true eigfn t =
      (List.range t.d2).map (fun q =>
        [(((eigfn (t.slice q)).take 2).map (fun x => x * x)).sum,
         (eigfn (t.slice q)).getD 2 0]) := by
    simp [flatten_A]
  have hS1 : flatten_sigma true b true eigfn t =
      (List.range t.d2).map (fun q =>
        [((eigfn (t.slice q)).take 2).sum, (eigfn (t.slice q)).getD 2 0]) := by
    simp [flatten_sigma]
  refine ⟨⟨?_, ?_⟩, ?_⟩
  · rw [hA0, h2]; simp
  · intro q hq
    rw [hA0, h2, getD_map_range _ _ _ _ hq]
    exact ⟨rfl, heig q hq⟩
  · intro hm
    refine ⟨⟨?_, ?_⟩, ?_, ?_⟩
    · rw [hA1, h2]; simp
    · intro q hq
      rw [hA1, h2, getD_map_range _ _ _ _ hq]
      have h3 : 3 ≤ (eigfn (t.slice q)).length := by rw [heig q hq]; exact hm
      obtain ⟨a, bb, c, rest, he⟩ := list_three _ h3
      rw [he]
      simp
    · rw [hS1, h2]; simp
    · intro q hq
      rw [hS1, h2, getD_map_range _ _ _ _ hq]
      have h3 : 3 ≤ (eigfn (t.slice q)).length := by rw [heig q hq]; exact hm
      obtain ⟨a, bb, c, rest, he⟩ := list_three _ h3
      rw [he]
      simp

theorem C9_witness :
    t9.d0 = 3 ∧ t9.d1 = 3 ∧ t9.d2 = 1 ∧ (∀ q, q < 1 → (eigfn9 (t9.slice q)).length = 3) ∧
    (flatten_A true false false eigfn9 t9).getD 0 [] = eigfn9 (t9.slice 0) ∧
    (flatten_A true false true eigfn9 t9).getD 0 [] =
      [(eigfn9 (t9.slice 0)).getD 0 0 * (eigfn9 (t9.slice 0)).getD 0 0 +
        (eigfn9 (t9.slice 0)).getD 1 0 * (eigfn9 (t9.slice 0)).getD 1 0,
       (eigfn9 (t9.slice 0)).getD 2 0] ∧
    (flatten_sigma true false true eigfn9 t9).getD 0 [] =
      [(eigfn9 (t9.slice 0)).getD 0 0 + (eigfn9 (t9.slice 0)).getD 1 0,
       (eigfn9 (t9.slice 0)).getD 2 0] := by
  have h := C9_eig_reduction eigfn9 false t9 3 1 rfl rfl rfl (fun q _ => rfl)
  exact ⟨rfl, rfl, rfl, fun q _ => rfl, (h.1.2 0 (by decide)).1,
    (h.2 (by decide)).1.2 0 (by decide), (h.2 (by decide)).2.2 0 (by decide)⟩

theorem initCluster_means (eigfn : List (List ℚ) → List ℚ) (trim : List ℚ → List ℚ)
    (npStd : List ℚ → ℚ) (params : ParamInput) (dt : ℚ) (eigs diags : Bool) (alg : String)
    (nc mi : ℕ) (wt : String) (wc : Option ℚ) (mp : ℚ) (ip : String) (ncl : Option ℕ)
    (lk : String) (cr : Bool) (m : Bool) :
    initCluster eigfn trim npStd params dt eigs diags m alg nc mi wt wc mp ip ncl lk cr =
      (initCluster eigfn trim npStd params dt eigs diags false alg nc mi wt wc mp ip ncl
        lk cr).map (fun s => { s with means := m }) := by
  unfold initCluster
  by_cases hv : alg = "bayesian" ∨ alg = "agglomerative"
  · rcases hv with rfl2 | rfl2
    · subst rfl2
      cases buildFeatures eigfn eigs diags cr params with
      | error e => rfl
      | ok Xb => rfl
    · subst rfl2
      cases buildFeatures eigfn eigs diags cr params with
      | error e => rfl
      | ok Xb =>
        cases Xb with
        | none => rfl
        | some X => rfl
  · simp only [if_neg hv]
    rfl

theorem fit_means (fp : List (List ℚ) → List ℤ) (s : ClusterState) (m : Bool) :
    fit fp { s with means := m } = (fit fp s).map (fun t => { t with means := m }) := by
  unfold fit
  cases hX : s.X with
  | none => simp [hX, Except.map]
  | some X => simp [hX, mkBackend, Except.map]

/-- C10: two constructions differing only in the means flag produce the
same feature matrix and the same fit behaviour (labels, cluster count,
backend): the means option is stored but never consulted by any code
path affecting the output. -/
theorem C10_means_inert (eigfn : List (List ℚ) → List ℚ) (trim : List ℚ → List ℚ)
    (npStd : List ℚ → ℚ) (params : ParamInput) (dt : ℚ) (eigs diags : Bool) (alg : String)
    (nc mi : ℕ) (wt : String) (wc : Option ℚ) (mp : ℚ) (ip : String) (ncl : Option ℕ)
    (lk : String) (cr : Bool) (m₁ m₂ : Bool) (fp : List (List ℚ) → List ℤ) :
    (initCluster eigfn trim npStd params dt eigs diags m₁ alg nc mi wt wc mp ip ncl lk
        cr).map (fun s => (s.X, (fit fp s).map stripMeans)) =
      (initCluster eigfn trim npStd params dt eigs diags m₂ alg nc mi wt wc mp ip ncl lk
        cr).map (fun s => (s.X, (fit fp s).map stripMeans)) := by
  rw [initCluster_means eigfn trim npStd params dt eigs diags alg nc mi wt wc mp ip ncl
      lk cr m₁,
    initCluster_means eigfn trim npStd params dt eigs diags alg nc mi wt wc mp ip ncl
      lk cr m₂]
  cases initCluster eigfn trim npStd params dt eigs diags false alg nc mi wt wc mp ip
      ncl lk cr with
  | error e => rfl
  | ok s =>
    simp only [Except.map]
    rw [fit_means fp s m₁, fit_means fp s m₂]
    cases fit fp s with
    | error e => rfl
    | ok t => rfl

end HdphmmCluster
